import Mathlib

/-!
Shallow embedding of the stored-procedure deployment engine in `main.py`
(`deploy_stored_procedures` and its helpers), for checking the repository's
specification.

External collaborators (the ODBC connection, the SQL server, the SHA-256
primitive, the filesystem read) are modelled as parameters: a `DB` record of
success oracles for the database operations, a `hash` function standing for
`calculate_file_hash`, and the script list standing for the `.sql` files
found by `os.listdir`.  Everything the Python control flow decides —
skip/deploy/error per script, the counters, the per-statement commit and
rollback discipline, the metadata table updates, the fatal `sys.exit(1)`
paths and the final exit code — is translated directly from the source.
-/

namespace Deploy

/-- Python `str.strip()` whitespace for the characters relevant here
(space, tab, newline, carriage return, vertical tab, form feed). -/
def pyIsSpace (c : Char) : Bool :=
  c = ' ' || c = '\t' || c = '\n' || c = '\r' || c = '\u000B' || c = '\u000C'

/-- Python `str.strip()`: drop leading and trailing whitespace. -/
def pyStrip (s : String) : String :=
  String.mk (((s.data.dropWhile pyIsSpace).reverse.dropWhile pyIsSpace).reverse)

/-- Python `text.split("\n")` on the character list of the text: the runs
of characters between newline characters, in order; `""` yields `[""]`. -/
def linesOf : List Char → List String
  | [] => [""]
  | c :: rest =>
    let r := linesOf rest
    if c = '\n' then
      "" :: r
    else
      match r with
      | [] => [String.mk [c]]
      | l :: ls => (String.mk [c] ++ l) :: ls

/-- `"\n".join(lines)`. -/
def joinNl : List String → String
  | [] => ""
  | [l] => l
  | l :: l2 :: ls => l ++ "\n" ++ joinNl (l2 :: ls)

/-- A line matched by the separator pattern `(?im)^\s*GO\s*$` of
`main.py` line 187: nothing on the line but optional whitespace around a
case-insensitive `GO`. -/
def isGoLine (line : String) : Bool :=
  match (pyStrip line).data with
  | [g, o] => (g = 'G' || g = 'g') && (o = 'O' || o = 'o')
  | _ => false

/-- Segments of a line list delimited by separator lines, mirroring how
`re.split` cuts the text at each match: separators are removed, the runs
between them (possibly empty) are kept in order. -/
def groupSegs : List String → List (List String)
  | [] => [[]]
  | l :: ls =>
    if isGoLine l then
      [] :: groupSegs ls
    else
      match groupSegs ls with
      | [] => [[l]]
      | seg :: segs => (l :: seg) :: segs

/-- The statement splitter of `main.py` lines 185-189, on a script already
cut into lines: segments between `GO`-only lines, each stripped, empty
segments discarded, source order preserved.  A match of the regex
`(?im)^\s*GO\s*$` removes only whitespace and the `GO` token itself, and
every match contains the `GO` of exactly one `GO`-only line, so after the
subsequent `strip` and empty filter the composite `re.split` pipeline
agrees with this line-level reading. -/
def splitStatementsLines (lines : List String) : List String :=
  ((groupSegs lines).map (fun seg => pyStrip (joinNl seg))).filter
    (fun s => !s.data.isEmpty)

/-- `statements = [stmt.strip() for stmt in re.split(r"(?im)^\s*GO\s*$", content) if stmt.strip()]`. -/
def splitStatements (content : String) : List String :=
  splitStatementsLines (linesOf content.data)

/-- A `.sql` file found in the scripts directory: `name` is the filename
stem (`os.path.splitext`), `content` the text read from the file. -/
structure Script where
  name : String
  content : String
deriving DecidableEq, Repr

/-- Success oracles for the external database: whether a given statement
executes without raising, whether the metadata SELECT of
`get_deployed_hashes` succeeds, whether the MERGE of
`update_deployment_metadata` succeeds, and whether the CREATE-IF-ABSENT of
`ensure_metadata_table_exists` succeeds. -/
structure DB where
  execOk : String → Bool
  loadOk : Bool
  upsertOk : String → String → Bool
  ensureOk : Bool

/-- Observable database / process events of one run, in order. -/
inductive Event where
  | ensureSchema
  | commit
  | rollback
  | loadMeta
  | warnLoadFail
  | execStmt (script stmt : String)
  | upsertMeta (script hsh : String)
  | closeConn
deriving DecidableEq, Repr

/-- Association-list lookup for the metadata table keyed by script name. -/
def lookupTable : List (String × String) → String → Option String
  | [], _ => none
  | (k, v) :: rest, n => if k = n then some v else lookupTable rest n

/-- The MERGE of `update_deployment_metadata`: update the row keyed by the
script name if present, insert it otherwise. -/
def upsertTable : List (String × String) → String → String → List (String × String)
  | [], n, h => [(n, h)]
  | (k, v) :: rest, n, h =>
    if k = n then (n, h) :: rest else (k, v) :: upsertTable rest n h

/-- Mutable state of `deploy_stored_procedures` while iterating scripts:
the persisted metadata table, the three counters, and the event trace. -/
structure St where
  table : List (String × String)
  deployed : Nat
  skipped : Nat
  errored : Nat
  events : List Event
deriving DecidableEq, Repr

/-- The inner statement loop (`main.py` lines 191-200): execute statements
in order, committing after each success; on the first failure roll back and
stop.  Returns the emitted events and whether a failure occurred (which
increments `error_count` by one). -/
def execStmts (db : DB) (name : String) : List String → List Event × Bool
  | [] => ([], false)
  | stmt :: rest =>
    if db.execOk stmt then
      let r := execStmts db name rest
      (Event.execStmt name stmt :: Event.commit :: r.1, r.2)
    else
      ([Event.execStmt name stmt, Event.rollback], true)

/-- One iteration of the per-file loop (`main.py` lines 164-214) for a
`.sql` file: skip when the loaded metadata already holds the local
fingerprint; otherwise split and execute the statements, and — only when
the run-global `error_count` is still zero — upsert the metadata and count
the script as deployed.  A failing upsert is `sys.exit(1)`: the second
component carries the fatal exit code. -/
def processScript (db : DB) (hash : String → String)
    (loaded : List (String × String)) (st : St) (s : Script) :
    St × Option Nat :=
  let localHash := hash s.content
  if lookupTable loaded s.name = some localHash then
    ({ st with skipped := st.skipped + 1 }, none)
  else
    let stmts := splitStatements s.content
    let r := execStmts db s.name stmts
    let st1 : St :=
      { st with
        events := st.events ++ r.1
        errored := st.errored + (if r.2 then 1 else 0) }
    if st1.errored = 0 then
      if db.upsertOk s.name localHash then
        ({ st1 with
            table := upsertTable st1.table s.name localHash
            events := st1.events ++ [Event.upsertMeta s.name localHash, Event.commit]
            deployed := st1.deployed + 1 }, none)
      else
        ({ st1 with events := st1.events ++ [Event.upsertMeta s.name localHash] }, some 1)
    else
      (st1, none)

/-- The per-file loop over all scripts, stopping early on a fatal exit. -/
def processAll (db : DB) (hash : String → String)
    (loaded : List (String × String)) : St → List Script → St × Option Nat
  | st, [] => (st, none)
  | st, s :: rest =>
    let r := processScript db hash loaded st s
    match r.2 with
    | some c => (r.1, some c)
    | none => processAll db hash loaded r.1 rest

/-- Outcome of one invocation of `deploy_stored_procedures`: the event
trace, the process exit code, whether the run ended in an early fatal
`sys.exit` (before the summary), the summary counters, and the final
contents of the metadata table. -/
structure RunResult where
  events : List Event
  exitCode : Nat
  fatal : Bool
  deployed : Nat
  skipped : Nat
  errored : Nat
  table : List (String × String)
deriving DecidableEq, Repr

/-- `deploy_stored_procedures` (`main.py` lines 148-227), after a
connection has been obtained: ensure the metadata table (fatal on
failure), load the deployed hashes (tolerating failure with a warning and
an empty mapping), fail fatally when the scripts directory is missing,
process each script, close the connection, and exit 1 exactly when the
error counter is positive.  `table0` is the persisted metadata table at
the start of the run; `dirExists` is `os.path.exists(SP_SCRIPTS_DIR)`;
`files` are the `.sql` files of the directory in listing order. -/
def run (db : DB) (hash : String → String) (table0 : List (String × String))
    (dirExists : Bool) (files : List Script) : RunResult :=
  if db.ensureOk then
    let ev1 : List Event := [Event.ensureSchema, Event.commit]
    let loaded := if db.loadOk then table0 else []
    let ev2 := ev1 ++ (if db.loadOk then [Event.loadMeta] else [Event.loadMeta, Event.warnLoadFail])
    if dirExists then
      let st0 : St := { table := table0, deployed := 0, skipped := 0, errored := 0, events := ev2 }
      let r := processAll db hash loaded st0 files
      match r.2 with
      | some c =>
        { events := r.1.events, exitCode := c, fatal := true,
          deployed := r.1.deployed, skipped := r.1.skipped, errored := r.1.errored,
          table := r.1.table }
      | none =>
        { events := r.1.events ++ [Event.closeConn],
          exitCode := if r.1.errored > 0 then 1 else 0, fatal := false,
          deployed := r.1.deployed, skipped := r.1.skipped, errored := r.1.errored,
          table := r.1.table }
    else
      { events := ev2, exitCode := 1, fatal := true,
        deployed := 0, skipped := 0, errored := 0, table := table0 }
  else
    { events := [Event.ensureSchema], exitCode := 1, fatal := true,
      deployed := 0, skipped := 0, errored := 0, table := table0 }

/-- The environment variables read by `get_db_connection`. -/
structure Env where
  server : Option String
  database : Option String
  username : Option String
  password : Option String
  port : Option String
deriving DecidableEq, Repr

/-- Python truthiness of `os.getenv`'s result: `None` and `""` are falsy. -/
def truthy : Option String → Bool
  | none => false
  | some s => s != ""

/-- The guard at `main.py` line 49: `all([server, database, username, password])`.
The port is not part of the list. -/
def envCheckPasses (e : Env) : Bool :=
  truthy e.server && truthy e.database && truthy e.username && truthy e.password

/-- Python `f"{x}"` on an optional value: `None` renders as `"None"`. -/
def pyShow : Option String → String
  | none => "None"
  | some s => s

/-- The connection string built at `main.py` lines 59-65. -/
def cnxnStr (e : Env) : String :=
  "DRIVER=\x7bODBC Driver 17 for SQL Server\x7d;SERVER=" ++ pyShow e.server ++ "," ++
    pyShow e.port ++ ";DATABASE=" ++ pyShow e.database ++ ";UID=" ++
    pyShow e.username ++ ";PWD=" ++ pyShow e.password

/-- What `get_db_connection` does before any retry loop: exit without a
connection attempt when the guard fails, otherwise start attempting to
connect with the built connection string. -/
inductive ConnAction where
  | exitNoAttempt
  | attemptConnect (cstr : String)
deriving DecidableEq, Repr

/-- `get_db_connection` (`main.py` lines 36-81) up to its first connection
attempt. -/
def connectDecision (e : Env) : ConnAction :=
  if envCheckPasses e then ConnAction.attemptConnect (cnxnStr e) else ConnAction.exitNoAttempt

/-! ### Basic lemmas about the metadata table and the splitter -/

theorem lookupTable_upsert_self (t : List (String × String)) (n h : String) :
    lookupTable (upsertTable t n h) n = some h := by
  induction t with
  | nil => simp [upsertTable, lookupTable]
  | cons kv rest ih =>
    obtain ⟨k, v⟩ := kv
    by_cases hk : k = n
    · simp [upsertTable, lookupTable, hk]
    · simp [upsertTable, lookupTable, hk, ih]

theorem lookupTable_upsert_ne (t : List (String × String)) (n h m : String)
    (hne : m ≠ n) : lookupTable (upsertTable t n h) m = lookupTable t m := by
  have hnm : ¬ n = m := fun hh => hne hh.symm
  induction t with
  | nil => simp [upsertTable, lookupTable, hnm]
  | cons kv rest ih =>
    obtain ⟨k, v⟩ := kv
    by_cases hk : k = n
    · subst hk
      simp [upsertTable, lookupTable, hnm]
    · simp only [upsertTable, if_neg hk]
      by_cases hm : k = m
      · simp [lookupTable, hm]
      · simp [lookupTable, hm, ih]

theorem execStmts_all_ok (db : DB) (name : String) (stmts : List String)
    (h : ∀ stmt ∈ stmts, db.execOk stmt = true) :
    (execStmts db name stmts).2 = false := by
  induction stmts with
  | nil => simp [execStmts]
  | cons stmt rest ih =>
    have h1 : db.execOk stmt = true := h stmt (List.mem_cons_self _ _)
    simp only [execStmts, h1, if_true]
    exact ih (fun t ht => h t (List.mem_cons_of_mem _ ht))

theorem groupSegs_ne_nil (lines : List String) : groupSegs lines ≠ [] := by
  cases lines with
  | nil => simp [groupSegs]
  | cons l ls =>
    simp only [groupSegs]
    by_cases hg : isGoLine l
    · simp [hg]
    · simp only [hg, if_false, Bool.false_eq_true]
      cases groupSegs ls with
      | nil => simp
      | cons seg segs => simp

theorem groupSegs_no_go (lines : List String)
    (h : ∀ l ∈ lines, isGoLine l = false) : groupSegs lines = [lines] := by
  induction lines with
  | nil => rfl
  | cons l ls ih =>
    have hl : isGoLine l = false := h l (List.mem_cons_self _ _)
    have hrest : groupSegs ls = [ls] := ih (fun t ht => h t (List.mem_cons_of_mem _ ht))
    simp [groupSegs, hl, hrest]

/-! ### Branch lemmas for one iteration of the per-file loop -/

theorem processScript_skip (db : DB) (hash : String → String)
    (loaded : List (String × String)) (st : St) (s : Script)
    (h : lookupTable loaded s.name = some (hash s.content)) :
    processScript db hash loaded st s = ({ st with skipped := st.skipped + 1 }, none) := by
  simp [processScript, h]

/-- The four possible outcomes of one non-skipped iteration, as one
equation: the statement loop failed (one error recorded, loop goes on), or
the run-global error counter was already positive (statements ran but the
line 202 guard withholds the upsert), or the upsert succeeds (deployed),
or the upsert fails (fatal exit 1). -/
theorem processScript_not_skip_eq (db : DB) (hash : String → String)
    (loaded : List (String × String)) (st : St) (s : Script)
    (h : ¬ lookupTable loaded s.name = some (hash s.content)) :
    processScript db hash loaded st s =
      if (execStmts db s.name (splitStatements s.content)).2 then
        ({ st with
            errored := st.errored + 1
            events := st.events ++ (execStmts db s.name (splitStatements s.content)).1 }, none)
      else if st.errored = 0 then
        if db.upsertOk s.name (hash s.content) then
          ({ st with
              table := upsertTable st.table s.name (hash s.content)
              deployed := st.deployed + 1
              events := st.events ++ (execStmts db s.name (splitStatements s.content)).1
                ++ [Event.upsertMeta s.name (hash s.content), Event.commit] }, none)
        else
          ({ st with
              events := st.events ++ (execStmts db s.name (splitStatements s.content)).1
                ++ [Event.upsertMeta s.name (hash s.content)] }, some 1)
      else
        ({ st with
            events := st.events ++ (execStmts db s.name (splitStatements s.content)).1 }, none) := by
  simp only [processScript, if_neg h]
  cases hf : (execStmts db s.name (splitStatements s.content)).2 with
  | true => simp [hf, Nat.succ_ne_zero]
  | false => simp [hf]

theorem processScript_skipped_of_ne (db : DB) (hash : String → String)
    (loaded : List (String × String)) (st : St) (s : Script)
    (h : ¬ lookupTable loaded s.name = some (hash s.content)) :
    (processScript db hash loaded st s).1.skipped = st.skipped := by
  rw [processScript_not_skip_eq db hash loaded st s h]
  split
  · rfl
  · split
    · split <;> rfl
    · rfl

theorem processScript_table_cases (db : DB) (hash : String → String)
    (loaded : List (String × String)) (st : St) (s : Script) :
    (processScript db hash loaded st s).1.table = st.table ∨
    (processScript db hash loaded st s).1.table = upsertTable st.table s.name (hash s.content) := by
  by_cases h : lookupTable loaded s.name = some (hash s.content)
  · rw [processScript_skip db hash loaded st s h]
    exact Or.inl rfl
  · rw [processScript_not_skip_eq db hash loaded st s h]
    split
    · exact Or.inl rfl
    · split
      · split
        · exact Or.inr rfl
        · exact Or.inl rfl
      · exact Or.inl rfl

theorem processScript_events_append (db : DB) (hash : String → String)
    (loaded : List (String × String)) (st : St) (s : Script) :
    ∃ tail, (processScript db hash loaded st s).1.events = st.events ++ tail := by
  by_cases h : lookupTable loaded s.name = some (hash s.content)
  · rw [processScript_skip db hash loaded st s h]
    exact ⟨[], by simp⟩
  · rw [processScript_not_skip_eq db hash loaded st s h]
    split
    · exact ⟨(execStmts db s.name (splitStatements s.content)).1, rfl⟩
    · split
      · split
        · refine ⟨(execStmts db s.name (splitStatements s.content)).1
            ++ [Event.upsertMeta s.name (hash s.content), Event.commit], ?_⟩
          simp
        · refine ⟨(execStmts db s.name (splitStatements s.content)).1
            ++ [Event.upsertMeta s.name (hash s.content)], ?_⟩
          simp
      · exact ⟨(execStmts db s.name (splitStatements s.content)).1, rfl⟩

theorem processScript_fatal_none (db : DB) (hash : String → String)
    (loaded : List (String × String)) (st : St) (s : Script)
    (h : db.upsertOk s.name (hash s.content) = true) :
    (processScript db hash loaded st s).2 = none := by
  by_cases hl : lookupTable loaded s.name = some (hash s.content)
  · rw [processScript_skip db hash loaded st s hl]
  · rw [processScript_not_skip_eq db hash loaded st s hl]
    split
    · rfl
    · split
      · simp [h]
      · rfl

/-! ### Lemmas about the whole per-file loop -/

theorem processAll_skip_all (db : DB) (hash : String → String)
    (loaded : List (String × String)) (files : List Script) : ∀ st : St,
    (∀ s ∈ files, lookupTable loaded s.name = some (hash s.content)) →
    processAll db hash loaded st files =
      ({ st with skipped := st.skipped + files.length }, none) := by
  induction files with
  | nil => intro st _; rfl
  | cons s rest ih =>
    intro st hall
    have hs := hall s (List.mem_cons_self _ _)
    have hrec := ih { st with skipped := st.skipped + 1 }
      (fun t ht => hall t (List.mem_cons_of_mem _ ht))
    simp only [processAll, processScript_skip db hash loaded st s hs, hrec]
    have harith : st.skipped + 1 + rest.length = st.skipped + (rest.length + 1) := by omega
    simp [harith]

theorem processAll_lookup_of_not_mem (db : DB) (hash : String → String)
    (loaded : List (String × String)) (files : List Script) : ∀ (st : St) (m : String),
    m ∉ files.map Script.name →
    lookupTable (processAll db hash loaded st files).1.table m = lookupTable st.table m := by
  induction files with
  | nil => intro st m _; rfl
  | cons s rest ih =>
    intro st m hm
    have hmne : m ≠ s.name := by
      intro hh; exact hm (by simp [hh])
    have hmrest : m ∉ rest.map Script.name := by
      intro hh; exact hm (by simp [hh])
    have htab : lookupTable (processScript db hash loaded st s).1.table m = lookupTable st.table m := by
      rcases processScript_table_cases db hash loaded st s with hcase | hcase
      · rw [hcase]
      · rw [hcase, lookupTable_upsert_ne st.table s.name (hash s.content) m hmne]
    rcases h2 : (processScript db hash loaded st s).2 with _ | c
    · simp only [processAll, h2]
      rw [ih (processScript db hash loaded st s).1 m hmrest, htab]
    · simp only [processAll, h2]
      exact htab

theorem processAll_fatal_none (db : DB) (hash : String → String)
    (loaded : List (String × String)) (files : List Script)
    (hups : ∀ n h, db.upsertOk n h = true) : ∀ st : St,
    (processAll db hash loaded st files).2 = none := by
  induction files with
  | nil => intro st; rfl
  | cons s rest ih =>
    intro st
    have h2 := processScript_fatal_none db hash loaded st s (hups s.name (hash s.content))
    simp only [processAll, h2]
    exact ih _

theorem processAll_skipped_of_empty_loaded (db : DB) (hash : String → String)
    (files : List Script) : ∀ st : St,
    (processAll db hash [] st files).1.skipped = st.skipped := by
  induction files with
  | nil => intro st; rfl
  | cons s rest ih =>
    intro st
    have hne : ¬ lookupTable [] s.name = some (hash s.content) := by
      simp [lookupTable]
    have hsk := processScript_skipped_of_ne db hash [] st s hne
    rcases h2 : (processScript db hash [] st s).2 with _ | c
    · simp only [processAll, h2]
      rw [ih _, hsk]
    · simp only [processAll, h2]
      exact hsk

theorem processAll_events_append (db : DB) (hash : String → String)
    (loaded : List (String × String)) (files : List Script) : ∀ st : St,
    ∃ tail, (processAll db hash loaded st files).1.events = st.events ++ tail := by
  induction files with
  | nil => intro st; exact ⟨[], by simp [processAll]⟩
  | cons s rest ih =>
    intro st
    obtain ⟨t1, ht1⟩ := processScript_events_append db hash loaded st s
    rcases h2 : (processScript db hash loaded st s).2 with _ | c
    · simp only [processAll, h2]
      obtain ⟨t2, ht2⟩ := ih (processScript db hash loaded st s).1
      exact ⟨t1 ++ t2, by rw [ht2, ht1, List.append_assoc]⟩
    · simp only [processAll, h2]
      exact ⟨t1, ht1⟩

/-- The state after a successful deployment of one script: fingerprint
upserted, deployed counter bumped, statement events and the metadata MERGE
plus commit appended. -/
def deployedSt (db : DB) (hash : String → String) (st : St) (s : Script) : St :=
  { st with
      table := upsertTable st.table s.name (hash s.content)
      deployed := st.deployed + 1
      events := st.events ++ (execStmts db s.name (splitStatements s.content)).1
        ++ [Event.upsertMeta s.name (hash s.content), Event.commit] }

/-- A run whose statement executions and upserts all succeed is not fatal,
ends with a zero error counter, and leaves every script's current
fingerprint in the metadata table. -/
theorem processAll_deploy_ok (db : DB) (hash : String → String)
    (loaded : List (String × String)) (files : List Script) : ∀ st : St,
    (∀ s ∈ files, ∀ stmt ∈ splitStatements s.content, db.execOk stmt = true) →
    (∀ n h, db.upsertOk n h = true) →
    st.errored = 0 →
    (files.map Script.name).Nodup →
    (∀ s ∈ files, lookupTable st.table s.name = lookupTable loaded s.name) →
    (processAll db hash loaded st files).2 = none ∧
    (processAll db hash loaded st files).1.errored = 0 ∧
    ∀ s ∈ files, lookupTable (processAll db hash loaded st files).1.table s.name
      = some (hash s.content) := by
  induction files with
  | nil =>
    intro st _ _ herr _ _
    exact ⟨rfl, herr, by simp⟩
  | cons s rest ih =>
    intro st hexec hups herr hnd hagree
    have hndrest : (rest.map Script.name).Nodup := by
      simpa using hnd.of_cons
    have hsne : s.name ∉ rest.map Script.name := by
      have h0 := hnd
      simp only [List.map_cons, List.nodup_cons] at h0
      exact h0.1
    have hfail : (execStmts db s.name (splitStatements s.content)).2 = false :=
      execStmts_all_ok db s.name _ (hexec s (List.mem_cons_self _ _))
    have hexecrest : ∀ t ∈ rest, ∀ stmt ∈ splitStatements t.content, db.execOk stmt = true :=
      fun t ht => hexec t (List.mem_cons_of_mem _ ht)
    by_cases hl : lookupTable loaded s.name = some (hash s.content)
    · -- the script is skipped: state unchanged apart from the counter
      have hps := processScript_skip db hash loaded st s hl
      have hagree2 : ∀ t ∈ rest,
          lookupTable ({ st with skipped := st.skipped + 1 } : St).table t.name
            = lookupTable loaded t.name :=
        fun t ht => hagree t (List.mem_cons_of_mem _ ht)
      obtain ⟨hf, he, htab⟩ := ih { st with skipped := st.skipped + 1 }
        hexecrest hups herr hndrest hagree2
      refine ⟨?_, ?_, ?_⟩
      · simp only [processAll, hps]; exact hf
      · simp only [processAll, hps]; exact he
      · intro t ht
        rcases List.mem_cons.mp ht with rfl | ht2
        · simp only [processAll, hps]
          rw [processAll_lookup_of_not_mem db hash loaded rest _ t.name hsne]
          show lookupTable st.table t.name = some (hash t.content)
          rw [hagree t (List.mem_cons_self _ _)]
          exact hl
        · simp only [processAll, hps]
          exact htab t ht2
    · -- the script is deployed: its fingerprint is upserted
      have hps : processScript db hash loaded st s = (deployedSt db hash st s, none) := by
        rw [processScript_not_skip_eq db hash loaded st s hl, hfail]
        simp only [Bool.false_eq_true, if_false]
        rw [if_pos herr, if_pos (hups s.name (hash s.content))]
        rfl
      have hagree2 : ∀ t ∈ rest,
          lookupTable (deployedSt db hash st s).table t.name = lookupTable loaded t.name := by
        intro t ht
        have htne : t.name ≠ s.name := by
          intro hh
          exact hsne (hh ▸ List.mem_map_of_mem Script.name ht)
        show lookupTable (upsertTable st.table s.name (hash s.content)) t.name
          = lookupTable loaded t.name
        rw [lookupTable_upsert_ne st.table s.name (hash s.content) t.name htne]
        exact hagree t (List.mem_cons_of_mem _ ht)
      have herr2 : (deployedSt db hash st s).errored = 0 := herr
      obtain ⟨hf, he, htab⟩ := ih (deployedSt db hash st s)
        hexecrest hups herr2 hndrest hagree2
      refine ⟨?_, ?_, ?_⟩
      · simp only [processAll, hps]; exact hf
      · simp only [processAll, hps]; exact he
      · intro t ht
        rcases List.mem_cons.mp ht with rfl | ht2
        · simp only [processAll, hps]
          rw [processAll_lookup_of_not_mem db hash loaded rest _ t.name hsne]
          show lookupTable (upsertTable st.table t.name (hash t.content)) t.name
            = some (hash t.content)
          exact lookupTable_upsert_self st.table t.name (hash t.content)
        · simp only [processAll, hps]
          exact htab t ht2

/-! ### Unfolding the run -/

/-- The mapping `get_deployed_hashes` hands to the loop: the persisted
table when the SELECT succeeds, the empty mapping when it fails. -/
def loadedOf (db : DB) (table0 : List (String × String)) : List (String × String) :=
  if db.loadOk then table0 else []

/-- Events emitted before the per-file loop starts. -/
def initEvents (db : DB) : List Event :=
  [Event.ensureSchema, Event.commit]
    ++ (if db.loadOk then [Event.loadMeta] else [Event.loadMeta, Event.warnLoadFail])

/-- The loop's starting state. -/
def initSt (db : DB) (table0 : List (String × String)) : St :=
  ⟨table0, 0, 0, 0, initEvents db⟩

theorem run_unfold (db : DB) (hash : String → String) (table0 : List (String × String))
    (dirExists : Bool) (files : List Script) :
    run db hash table0 dirExists files =
      if db.ensureOk then
        if dirExists then
          (fun r : St × Option Nat =>
            match r.2 with
            | some c =>
              ⟨r.1.events, c, true, r.1.deployed, r.1.skipped, r.1.errored, r.1.table⟩
            | none =>
              ⟨r.1.events ++ [Event.closeConn], if r.1.errored > 0 then 1 else 0, false,
                r.1.deployed, r.1.skipped, r.1.errored, r.1.table⟩)
            (processAll db hash (loadedOf db table0) (initSt db table0) files)
        else ⟨initEvents db, 1, true, 0, 0, 0, table0⟩
      else ⟨[Event.ensureSchema], 1, true, 0, 0, 0, table0⟩ := rfl

/-! ### Concrete fixtures -/

/-- Identity stand-in for the SHA-256 hex digest in concrete scenarios:
the engine only ever compares fingerprints for equality. -/
def idHash : String → String := fun s => s

/-- A database on which every operation succeeds. -/
def dbAllOk : DB := ⟨fun _ => true, true, fun _ _ => true, true⟩

/-- A database on which the statement `FAIL` raises and everything else
succeeds. -/
def dbOneFail : DB := ⟨fun stmt => stmt != "FAIL", true, fun _ _ => true, true⟩

/-- A database whose metadata SELECT (`get_deployed_hashes`) fails. -/
def dbLoadFails : DB := ⟨fun _ => true, false, fun _ _ => true, true⟩

/-- A database whose metadata MERGE (`update_deployment_metadata`) fails. -/
def dbUpsertFails : DB := ⟨fun _ => true, true, fun _ _ => false, true⟩

/-- Five one-statement scripts; the first one's statement fails on
`dbOneFail`, the other four succeed. -/
def fiveScripts : List Script :=
  [⟨"p1", "FAIL"⟩, ⟨"p2", "A2"⟩, ⟨"p3", "A3"⟩, ⟨"p4", "A4"⟩, ⟨"p5", "A5"⟩]

/-! ### The claims -/

/-- C1.  The claim says a script whose statements all execute without
error is upserted and counted as deployed regardless of failures in other
scripts, so 5 scripts with 1 failure report deployed=4.  Evaluating the
code on 5 one-statement scripts whose first fails and whose remaining four
execute without error: the run reports deployed=0, upserts no metadata row
at all, yet the four clean scripts' statements did run — because line 202
gates the upsert on the run-global `error_count` instead of a per-script
flag. -/
theorem C1_global_error_gate_blocks_later_deploys :
    (run dbOneFail idHash [] true fiveScripts).deployed = 0 ∧
    (run dbOneFail idHash [] true fiveScripts).errored = 1 ∧
    (run dbOneFail idHash [] true fiveScripts).exitCode = 1 ∧
    (run dbOneFail idHash [] true fiveScripts).table = [] ∧
    Event.execStmt "p2" "A2" ∈ (run dbOneFail idHash [] true fiveScripts).events ∧
    Event.upsertMeta "p2" "A2" ∉ (run dbOneFail idHash [] true fiveScripts).events := by
  decide

/-- C5.  The splitter cuts exactly at lines containing nothing but a
case-insensitive `GO` with optional surrounding whitespace, trims each
segment, drops empty segments, and preserves order: the sample text
produces `["stmtA", "stmtB", "stmtC"]`, and a text none of whose lines is
a `GO`-only line — in particular one with `GO` embedded in a larger token
or mid-statement — is never split. -/
theorem C5_statement_splitter :
    splitStatements "stmtA\nGO\nstmtB\n  go  \nstmtC" = ["stmtA", "stmtB", "stmtC"]
    ∧ ∀ lines : List String, (∀ l ∈ lines, isGoLine l = false) →
        splitStatementsLines lines
          = List.filter (fun s => !s.data.isEmpty) [pyStrip (joinNl lines)] := by
  constructor
  · decide
  · intro lines h
    unfold splitStatementsLines
    rw [groupSegs_no_go lines h]
    rfl

theorem C5_statement_splitter_witness :
    splitStatementsLines ["SELECT 1 GO 2"] = ["SELECT 1 GO 2"] := by
  have h := C5_statement_splitter.2 ["SELECT 1 GO 2"] (by decide)
  exact h.trans (by decide)

/-- C6 counterexample.  The claim says an empty scripts directory is a
fatal non-zero exit; in the code `os.path.exists` accepts an existing
empty directory, the loop runs zero times, and the run exits 0. -/
theorem C6_empty_dir_not_fatal_counterexample :
    (run dbAllOk idHash [] true []).exitCode = 0 ∧
    (run dbAllOk idHash [] true []).fatal = false := by
  decide

/-- C6 amended.  A missing scripts directory is fatal with exit code 1,
writes no metadata record (the table is untouched) and executes no script
statement — the only database activity before the abort is the schema
ensure and the metadata read; an empty but existing directory is not
fatal: the run completes with exit code 0 and all counters zero. -/
theorem C6_missing_dir_fatal_empty_dir_success (db : DB) (hash : String → String)
    (table0 : List (String × String)) (files : List Script)
    (hens : db.ensureOk = true) :
    ((run db hash table0 false files).fatal = true ∧
     (run db hash table0 false files).exitCode = 1 ∧
     (run db hash table0 false files).table = table0 ∧
     ∀ e ∈ (run db hash table0 false files).events,
       e = Event.ensureSchema ∨ e = Event.commit ∨ e = Event.loadMeta ∨ e = Event.warnLoadFail)
    ∧ ((run db hash table0 true []).exitCode = 0 ∧
       (run db hash table0 true []).fatal = false ∧
       (run db hash table0 true []).deployed = 0 ∧
       (run db hash table0 true []).skipped = 0 ∧
       (run db hash table0 true []).errored = 0 ∧
       (run db hash table0 true []).table = table0) := by
  rw [run_unfold db hash table0 false files, run_unfold db hash table0 true [],
    if_pos hens, if_pos hens]
  refine ⟨⟨rfl, rfl, rfl, ?_⟩, ?_⟩
  · intro e he
    cases hload : db.loadOk <;> rw [initEvents, hload] at he <;> simp at he <;> tauto
  · show _ ∧ _ ∧ _ ∧ _ ∧ _ ∧ _
    exact ⟨rfl, rfl, rfl, rfl, rfl, rfl⟩

theorem C6_missing_dir_fatal_empty_dir_success_witness :
    (run dbAllOk idHash [("a", "x")] false [⟨"a", "y"⟩]).fatal = true ∧
    (run dbAllOk idHash [("a", "x")] false [⟨"a", "y"⟩]).table = [("a", "x")] ∧
    (run dbAllOk idHash [("a", "x")] true []).exitCode = 0 :=
  ⟨(C6_missing_dir_fatal_empty_dir_success dbAllOk idHash [("a", "x")] [⟨"a", "y"⟩] rfl).1.1,
   (C6_missing_dir_fatal_empty_dir_success dbAllOk idHash [("a", "x")] [⟨"a", "y"⟩] rfl).1.2.2.1,
   (C6_missing_dir_fatal_empty_dir_success dbAllOk idHash [("a", "x")] [⟨"a", "y"⟩] rfl).2.1⟩

/-- C7.  The claim says all five connection parameters, port included, are
validated before the first connection attempt.  Evaluating the guard of
`get_db_connection` (line 49 checks only server, database, username,
password): with everything set but the port, the code still proceeds to a
connection attempt, interpolating `None` as the port; with the password
missing instead, the guard does fire and no attempt is made. -/
theorem C7_missing_port_still_attempts_connect :
    connectDecision ⟨some "srv", some "db", some "usr", some "pwd", none⟩
      = ConnAction.attemptConnect
          "DRIVER=\x7bODBC Driver 17 for SQL Server\x7d;SERVER=srv,None;DATABASE=db;UID=usr;PWD=pwd"
    ∧ connectDecision ⟨some "srv", some "db", some "usr", none, some "1433"⟩
      = ConnAction.exitNoAttempt := by
  decide

/-- C8 counterexample.  The claim says the connection is closed before the
process exits on every terminating execution including fatal aborts; on
the missing-directory fatal path the code reaches `sys.exit(1)` without
ever executing `cnxn.close()` (there is no try/finally). -/
theorem C8_fatal_abort_skips_close_counterexample :
    (run dbAllOk idHash [] false []).exitCode = 1 ∧
    Event.closeConn ∉ (run dbAllOk idHash [] false []).events := by
  decide

/-- C8 amended.  Runs that complete the per-file loop — with or without
per-script errors — close the connection as their last action before the
summary and exit; the early fatal `sys.exit(1)` paths (schema-ensure
failure, missing scripts directory, metadata-upsert failure) exit without
an explicit close. -/
theorem C8_completed_runs_close_connection (db : DB) (hash : String → String)
    (table0 : List (String × String)) (dirExists : Bool) (files : List Script)
    (h : (run db hash table0 dirExists files).fatal = false) :
    ∃ pre, (run db hash table0 dirExists files).events = pre ++ [Event.closeConn] := by
  rw [run_unfold] at h ⊢
  by_cases hens : db.ensureOk = true
  · rw [if_pos hens] at h ⊢
    by_cases hdir : dirExists = true
    · rw [if_pos hdir] at h ⊢
      rcases h2 : (processAll db hash (loadedOf db table0) (initSt db table0) files).2 with _ | c
      · simp only [h2] at h ⊢
        exact ⟨_, rfl⟩
      · simp only [h2] at h
        exact Bool.noConfusion h
    · rw [if_neg hdir] at h
      exact Bool.noConfusion h
  · rw [if_neg hens] at h
    exact Bool.noConfusion h

theorem C8_completed_runs_close_connection_witness :
    ∃ pre, (run dbOneFail idHash [] true fiveScripts).events = pre ++ [Event.closeConn] :=
  C8_completed_runs_close_connection dbOneFail idHash [] true fiveScripts rfl

/-- C3.  A script is skipped — state untouched except the skip counter, so
no statement execution and no metadata write — exactly when the loaded
metadata holds its name with a fingerprint equal to the local one; in
every other case the statement loop's events are emitted. -/
theorem C3_skip_iff_fingerprint_match (db : DB) (hash : String → String)
    (loaded : List (String × String)) (st : St) (s : Script) :
    (processScript db hash loaded st s = ({ st with skipped := st.skipped + 1 }, none)
      ↔ lookupTable loaded s.name = some (hash s.content))
    ∧ (¬ lookupTable loaded s.name = some (hash s.content) →
        ∃ extra, (processScript db hash loaded st s).1.events
          = st.events ++ (execStmts db s.name (splitStatements s.content)).1 ++ extra) := by
  constructor
  · constructor
    · intro heq
      by_contra hne
      have hsk := processScript_skipped_of_ne db hash loaded st s hne
      rw [heq] at hsk
      simp at hsk
    · exact processScript_skip db hash loaded st s
  · intro hne
    rw [processScript_not_skip_eq db hash loaded st s hne]
    split
    · exact ⟨[], by simp⟩
    · split
      · split
        · exact ⟨[Event.upsertMeta s.name (hash s.content), Event.commit], rfl⟩
        · exact ⟨[Event.upsertMeta s.name (hash s.content)], rfl⟩
      · exact ⟨[], by simp⟩

theorem C3_skip_iff_fingerprint_match_witness :
    processScript dbAllOk idHash [("a", "x")] ⟨[("a", "x")], 0, 5, 0, []⟩ ⟨"a", "x"⟩
      = (⟨[("a", "x")], 0, 6, 0, []⟩, none)
    ∧ ∃ extra, (processScript dbAllOk idHash [] ⟨[], 0, 0, 0, []⟩ ⟨"b", "y"⟩).1.events
        = [] ++ (execStmts dbAllOk "b" (splitStatements "y")).1 ++ extra := by
  constructor
  · exact (C3_skip_iff_fingerprint_match dbAllOk idHash [("a", "x")]
      ⟨[("a", "x")], 0, 5, 0, []⟩ ⟨"a", "x"⟩).1.mpr (by decide)
  · exact (C3_skip_iff_fingerprint_match dbAllOk idHash []
      ⟨[], 0, 0, 0, []⟩ ⟨"b", "y"⟩).2 (by decide)

/-- C4.  For a new-or-changed script splitting into three statements whose
second fails: the first is executed and committed, the second is executed
and rolled back, the third is never reached, exactly one error is
recorded, the metadata table is untouched for that script, the iteration
is not fatal, and the loop continues with the remaining scripts from the
post-error state. -/
theorem C4_statement_failure_isolation (db : DB) (hash : String → String)
    (loaded : List (String × String)) (st : St) (s : Script) (a b c : String)
    (rest : List Script)
    (hsplit : splitStatements s.content = [a, b, c])
    (ha : db.execOk a = true) (hb : db.execOk b = false)
    (hnew : ¬ lookupTable loaded s.name = some (hash s.content)) :
    processScript db hash loaded st s
      = ({ st with
            errored := st.errored + 1
            events := st.events
              ++ [Event.execStmt s.name a, Event.commit,
                  Event.execStmt s.name b, Event.rollback] }, none)
    ∧ processAll db hash loaded st (s :: rest)
      = processAll db hash loaded
          ({ st with
              errored := st.errored + 1
              events := st.events
                ++ [Event.execStmt s.name a, Event.commit,
                    Event.execStmt s.name b, Event.rollback] })
          rest := by
  have hex : execStmts db s.name (splitStatements s.content)
      = ([Event.execStmt s.name a, Event.commit,
          Event.execStmt s.name b, Event.rollback], true) := by
    rw [hsplit]
    simp [execStmts, ha, hb]
  have h1 : processScript db hash loaded st s
      = ({ st with
            errored := st.errored + 1
            events := st.events
              ++ [Event.execStmt s.name a, Event.commit,
                  Event.execStmt s.name b, Event.rollback] }, none) := by
    rw [processScript_not_skip_eq db hash loaded st s hnew]
    simp [hex]
  refine ⟨h1, ?_⟩
  simp only [processAll, h1]

theorem C4_statement_failure_isolation_witness :
    processScript dbOneFail idHash [] ⟨[], 0, 0, 0, []⟩ ⟨"sp", "A\nGO\nFAIL\nGO\nC"⟩
      = (⟨[], 0, 0, 1, [Event.execStmt "sp" "A", Event.commit,
          Event.execStmt "sp" "FAIL", Event.rollback]⟩, none)
    ∧ processAll dbOneFail idHash [] ⟨[], 0, 0, 0, []⟩
        [⟨"sp", "A\nGO\nFAIL\nGO\nC"⟩, ⟨"next", "N"⟩]
      = processAll dbOneFail idHash []
          ⟨[], 0, 0, 1, [Event.execStmt "sp" "A", Event.commit,
            Event.execStmt "sp" "FAIL", Event.rollback]⟩ [⟨"next", "N"⟩] :=
  C4_statement_failure_isolation dbOneFail idHash [] ⟨[], 0, 0, 0, []⟩
    ⟨"sp", "A\nGO\nFAIL\nGO\nC"⟩ "A" "FAIL" "C" [⟨"next", "N"⟩]
    (by decide) (by decide) (by decide) (by decide)

/-- C10.  A new-or-changed script whose content splits into zero
statements executes nothing, yet — provided no earlier error occurred in
the run — its fingerprint is upserted and it is counted as deployed. -/
theorem C10_zero_statement_script_deployed (db : DB) (hash : String → String)
    (loaded : List (String × String)) (st : St) (s : Script)
    (hsplit : splitStatements s.content = [])
    (hnew : ¬ lookupTable loaded s.name = some (hash s.content))
    (herr : st.errored = 0)
    (hups : db.upsertOk s.name (hash s.content) = true) :
    processScript db hash loaded st s
      = ({ st with
            table := upsertTable st.table s.name (hash s.content)
            deployed := st.deployed + 1
            events := st.events
              ++ [Event.upsertMeta s.name (hash s.content), Event.commit] }, none) := by
  have hex : execStmts db s.name (splitStatements s.content) = ([], false) := by
    rw [hsplit]
    rfl
  rw [processScript_not_skip_eq db hash loaded st s hnew]
  simp [hex, herr, hups]

theorem C10_zero_statement_script_deployed_witness :
    processScript dbAllOk idHash [] ⟨[], 0, 0, 0, []⟩ ⟨"noop", "\nGO\n  \nGO\n"⟩
      = (⟨[("noop", "\nGO\n  \nGO\n")], 1, 0, 0,
          [Event.upsertMeta "noop" "\nGO\n  \nGO\n", Event.commit]⟩, none) :=
  C10_zero_statement_script_deployed dbAllOk idHash [] ⟨[], 0, 0, 0, []⟩
    ⟨"noop", "\nGO\n  \nGO\n"⟩ (by decide) (by decide) rfl rfl

/-- C2.  Idempotence: when the environment is benign — the schema ensure,
the metadata read, every statement execution and every upsert succeed —
and the script names are distinct (as filenames in one directory are),
running the engine a second time on the unchanged files over the table the
first run produced deploys nothing, skips every script, and exits 0 with
no errors. -/
theorem C2_second_run_idempotent (db : DB) (hash : String → String)
    (table0 : List (String × String)) (files : List Script)
    (hens : db.ensureOk = true) (hload : db.loadOk = true)
    (hexec : ∀ s ∈ files, ∀ stmt ∈ splitStatements s.content, db.execOk stmt = true)
    (hups : ∀ n h, db.upsertOk n h = true)
    (hnd : (files.map Script.name).Nodup) :
    (run db hash (run db hash table0 true files).table true files).deployed = 0 ∧
    (run db hash (run db hash table0 true files).table true files).skipped = files.length ∧
    (run db hash (run db hash table0 true files).table true files).errored = 0 ∧
    (run db hash (run db hash table0 true files).table true files).exitCode = 0 := by
  have hl0 : ∀ t0 : List (String × String), loadedOf db t0 = t0 := by
    intro t0
    simp [loadedOf, hload]
  -- what the first run leaves in the metadata table
  obtain ⟨hf1, he1, htab1⟩ := processAll_deploy_ok db hash (loadedOf db table0) files
    (initSt db table0) hexec hups rfl hnd
    (fun s hs => by rw [hl0]; rfl)
  have hrun1 : (run db hash table0 true files).table
      = (processAll db hash (loadedOf db table0) (initSt db table0) files).1.table := by
    rw [run_unfold, if_pos hens, if_pos rfl]
    simp only [hf1]
  -- a second run over any table that already holds every fingerprint skips everything
  have key : ∀ T2 : List (String × String),
      (∀ s ∈ files, lookupTable T2 s.name = some (hash s.content)) →
      (run db hash T2 true files).deployed = 0 ∧
      (run db hash T2 true files).skipped = files.length ∧
      (run db hash T2 true files).errored = 0 ∧
      (run db hash T2 true files).exitCode = 0 := by
    intro T2 hT2
    have hsk := processAll_skip_all db hash (loadedOf db T2) files (initSt db T2)
      (fun s hs => by rw [hl0]; exact hT2 s hs)
    rw [run_unfold, if_pos hens, if_pos rfl]
    simp only [hsk]
    refine ⟨rfl, ?_, rfl, rfl⟩
    show 0 + files.length = files.length
    exact Nat.zero_add _
  exact key (run db hash table0 true files).table
    (fun s hs => by rw [hrun1]; exact htab1 s hs)

theorem C2_second_run_idempotent_witness :
    (run dbAllOk idHash
      (run dbAllOk idHash [] true [⟨"a", "x"⟩, ⟨"b", "y"⟩]).table
      true [⟨"a", "x"⟩, ⟨"b", "y"⟩]).deployed = 0 ∧
    (run dbAllOk idHash
      (run dbAllOk idHash [] true [⟨"a", "x"⟩, ⟨"b", "y"⟩]).table
      true [⟨"a", "x"⟩, ⟨"b", "y"⟩]).skipped = 2 ∧
    (run dbAllOk idHash
      (run dbAllOk idHash [] true [⟨"a", "x"⟩, ⟨"b", "y"⟩]).table
      true [⟨"a", "x"⟩, ⟨"b", "y"⟩]).errored = 0 ∧
    (run dbAllOk idHash
      (run dbAllOk idHash [] true [⟨"a", "x"⟩, ⟨"b", "y"⟩]).table
      true [⟨"a", "x"⟩, ⟨"b", "y"⟩]).exitCode = 0 :=
  C2_second_run_idempotent dbAllOk idHash [] [⟨"a", "x"⟩, ⟨"b", "y"⟩]
    rfl rfl (fun _ _ _ _ => rfl) (fun _ _ => rfl) (by decide)

/-- C9.  The error-severity asymmetry of the metadata store: a failing
metadata SELECT is tolerated — the run logs a warning, proceeds with an
empty mapping so nothing is ever skipped, and (when the rest of the run
succeeds) is not fatal — whereas a failing metadata MERGE after a script
executed cleanly aborts the whole run fatally with exit code 1. -/
theorem C9_metadata_failure_asymmetry (db : DB) (hash : String → String)
    (table0 : List (String × String)) (files : List Script) (s : Script)
    (hens : db.ensureOk = true) :
    (db.loadOk = false → (∀ n h, db.upsertOk n h = true) →
      Event.warnLoadFail ∈ (run db hash table0 true files).events ∧
      (run db hash table0 true files).fatal = false ∧
      (run db hash table0 true files).skipped = 0)
    ∧ (db.loadOk = true →
       ¬ lookupTable table0 s.name = some (hash s.content) →
       (∀ stmt ∈ splitStatements s.content, db.execOk stmt = true) →
       db.upsertOk s.name (hash s.content) = false →
       (run db hash table0 true [s]).fatal = true ∧
       (run db hash table0 true [s]).exitCode = 1) := by
  constructor
  · intro hload hups
    rw [run_unfold, if_pos hens, if_pos rfl]
    have hn := processAll_fatal_none db hash (loadedOf db table0) files hups (initSt db table0)
    simp only [hn]
    refine ⟨?_, by trivial, ?_⟩
    · obtain ⟨tail, htail⟩ :=
        processAll_events_append db hash (loadedOf db table0) files (initSt db table0)
      rw [htail]
      have hw : Event.warnLoadFail ∈ (initSt db table0).events := by
        simp [initSt, initEvents, hload]
      exact List.mem_append_left _ (List.mem_append_left _ hw)
    · have hl0 : loadedOf db table0 = [] := by
        simp [loadedOf, hload]
      rw [hl0]
      exact processAll_skipped_of_empty_loaded db hash files (initSt db table0)
  · intro hload hnew hexec hupf
    rw [run_unfold, if_pos hens, if_pos rfl]
    have hl0 : loadedOf db table0 = table0 := by
      simp [loadedOf, hload]
    have hfail : (execStmts db s.name (splitStatements s.content)).2 = false :=
      execStmts_all_ok db s.name _ hexec
    have hps : processScript db hash (loadedOf db table0) (initSt db table0) s
        = ({ initSt db table0 with
              events := (initSt db table0).events
                ++ (execStmts db s.name (splitStatements s.content)).1
                ++ [Event.upsertMeta s.name (hash s.content)] }, some 1) := by
      rw [processScript_not_skip_eq db hash (loadedOf db table0) (initSt db table0) s
        (by rw [hl0]; exact hnew), hfail]
      simp only [Bool.false_eq_true, if_false]
      rw [if_pos (show (initSt db table0).errored = 0 from rfl),
        if_neg (by simp [hupf])]
    simp only [processAll, hps]
    exact ⟨by trivial, by trivial⟩

theorem C9_metadata_failure_asymmetry_witness :
    (Event.warnLoadFail ∈ (run dbLoadFails idHash [("a", "x")] true [⟨"a", "x"⟩]).events ∧
     (run dbLoadFails idHash [("a", "x")] true [⟨"a", "x"⟩]).skipped = 0) ∧
    ((run dbUpsertFails idHash [] true [⟨"b", "y"⟩]).fatal = true ∧
     (run dbUpsertFails idHash [] true [⟨"b", "y"⟩]).exitCode = 1) := by
  have h1 := (C9_metadata_failure_asymmetry dbLoadFails idHash [("a", "x")]
    [⟨"a", "x"⟩] ⟨"a", "x"⟩ rfl).1 rfl (fun _ _ => rfl)
  have h2 := (C9_metadata_failure_asymmetry dbUpsertFails idHash []
    [⟨"b", "y"⟩] ⟨"b", "y"⟩ rfl).2 rfl (by decide) (fun _ _ => rfl) rfl
  exact ⟨⟨h1.1, h1.2.2⟩, h2⟩

end Deploy
